import Mathlib

/-!
Verification of `util/flightcontrol/flightcontrol.go` (package flightcontrol):
a singleflight-style deduplication group with cancellation-context merging and
nested progress multiplexing.

The Go code is shallowly embedded: each Go function that the claims depend on
is translated into an executable Lean definition over explicit state records.
Channels are modelled by Boolean "closed" flags, `sync.Once` by a claimed flag,
mutex-protected mutation by pure state-passing, and the nondeterministic
`select` choices of a waiter by an explicit event parameter.  Go's nilable
`error` values become `Option ErrV`, and a result `interface{}` becomes
`Option Val`.
-/

namespace Flightcontrol

/-- Go `error` values relevant to the package: the package-level sentinel
`errRetry` (`var errRetry = errors.Errorf("retry")`), a caller context's
completion error (`ctx.Err()`), and an error returned by the user function. -/
inductive ErrV where
  | retry
  | canceled (n : Nat)
  | fnFail (n : Nat)
  deriving DecidableEq, Repr

/-- Result values (`interface{}` payloads) are abstracted to naturals. -/
abbrev Val := Nat

/-- The concrete value carried by a progress-writer capability: `raw` models a
value implementing the `rawProgressWriter` interface (`WriteRawProgress` and
`Close`), `plain` models a `progress.Writer` that does not implement it, so the
type assertion `pw.(rawProgressWriter)` in `progressState.add` fails. -/
inductive PWriter where
  | raw (wid : Nat)
  | plain (wid : Nat)
  deriving DecidableEq, Repr

/-- A caller context as observed by the call: whether its `Done` channel is
closed, the error `ctx.Err()` reports once done, the deadline it reports
(`ctx.Deadline()`), and the progress-writer capability it carries.
The capability field models `progress.FromContext`.  Modelled from the spec:
`progress.FromContext` lives in the progress package, outside this source
tree; per the spec a context "may optionally carry a progress-writer
capability" which the core extracts from a joining caller's context if
present, so the capability is a field of the context. -/
structure Wctx where
  done : Bool
  errv : ErrV
  deadline : Option Nat
  pw : Option PWriter
  deriving DecidableEq, Repr

/-- State of `sharedContext` together with the `ctxs` slice of its embedded
`call`: the registered waiter contexts in registration order, whether the
merged `done` channel has been closed, and the merged error `sharedContext.err`. -/
structure SharedSt where
  ctxs : List Wctx
  done : Bool
  err : Option ErrV
  deriving DecidableEq, Repr

/-- The merger state of a freshly constructed call (`newContext`): no
registered contexts, `done` channel open, no error. -/
def mergerInit : SharedSt := ⟨[], false, none⟩

/-- The loop body of `sharedContext.signal`: scan `c.ctxs` in order with the
accumulator `err`; a context whose `Done` channel is closed overwrites `err`
with its `ctx.Err()`, a still-active context aborts the scan (`return`).
Result `none` models the early `return`; `some e` models falling out of the
loop with final accumulator `e`. -/
def signalScan : List Wctx → Option ErrV → Option (Option ErrV)
  | [], acc => some acc
  | w :: rest, _ => if w.done then signalScan rest (some w.errv) else none

/-- `sharedContext.signal` (called with the call's lock held): if the merged
`done` channel is already closed, do nothing; otherwise scan all registered
contexts, and only if every one has completed record the final scanned error
and close the merged `done` channel. -/
def signal (s : SharedSt) : SharedSt :=
  if s.done then s
  else
    match signalScan s.ctxs none with
    | none => s
    | some e => { s with err := e, done := true }

/-- Marks the i-th registered context as completed (its own `Done` channel
closes); used to describe external context completions in the step relation. -/
def setDone : List Wctx → Nat → List Wctx
  | [], _ => []
  | w :: rest, 0 => { w with done := true } :: rest
  | w :: rest, n + 1 => w :: setDone rest n

/-- Events that mutate the merger state, each serialized by the call's mutex:
`join` is `call.append` adding a context to `c.ctxs`; `complete` is the
external completion of one registered context's own `Done` channel; `signalEv`
is an invocation of `sharedContext.signal` under the lock (from a waiter's
watcher goroutine after its context completed, or from `call.Done`). -/
inductive MStep : SharedSt → SharedSt → Prop where
  | join (s : SharedSt) (w : Wctx) : MStep s { s with ctxs := s.ctxs ++ [w] }
  | complete (s : SharedSt) (i : Nat) : MStep s { s with ctxs := setDone s.ctxs i }
  | signalEv (s : SharedSt) : MStep s (signal s)

/-- Merger states reachable from a fresh call by joins, context completions and
signal evaluations. -/
def MReach (s : SharedSt) : Prop := Relation.ReflTransGen MStep mergerInit s

/-- Number of registered waiter contexts that are still active. -/
def activeCount (l : List Wctx) : Nat := (l.filter fun w => !w.done).length

/-- `call.Deadline`: scan `c.ctxs` in registration order, skip contexts whose
`Done` channel has closed, and return the first deadline reported by a
still-active context; report none if the scan falls through. -/
def Deadline : List Wctx → Option Nat
  | [] => none
  | w :: rest =>
    if w.done then Deadline rest
    else
      match w.deadline with
      | some d => some d
      | none => Deadline rest

/-- Spec-side definition, following the words of the spec only (for comparison
with `Deadline`): "the earliest deadline among currently-active waiters
(ignoring waiters already completed)". -/
def earliestActiveDeadline (l : List Wctx) : Option Nat :=
  (l.filterMap fun w => if w.done then none else w.deadline).foldl
    (fun acc d =>
      match acc with
      | none => some d
      | some a => some (Nat.min a d)) none

/-- State of a `call` record: the write-once `result` and `err` fields, whether
the `ready` channel has been closed, whether the `sync.Once` guard `once` has
been claimed, and an instrumentation counter of how many times `c.run` has
actually been entered (the spec's "instrumenting the work function with a
counter"). -/
structure CallSt where
  result : Option Val
  err : Option ErrV
  readyClosed : Bool
  onceUsed : Bool
  runs : Nat
  deriving DecidableEq, Repr

/-- `newCall`: fields zeroed, `ready` channel open, `once` unclaimed. -/
def newCall : CallSt :=
  { result := none, err := none, readyClosed := false, onceUsed := false, runs := 0 }

/-- One `go c.once.Do(c.run)` trigger as issued by every `call.wait`:
`sync.Once` runs the body only for the first claimant and is a no-op for every
later trigger. -/
def triggerOnce (c : CallSt) : CallSt :=
  if c.onceUsed then c else { c with onceUsed := true, runs := c.runs + 1 }

/-- n successive `once.Do(c.run)` triggers, one per joining waiter. -/
def triggerN : Nat → CallSt → CallSt
  | 0, c => c
  | n + 1, c => triggerN n (triggerOnce c)

/-- The state mutation of `c.run` once the user function has returned `(v, e)`:
store `c.result` and `c.err` under the lock, then close the `ready` channel.
In the record both happen in one update; the Go code stores the fields strictly
before `close(c.ready)`, so any read gated on `ready` sees them. -/
def runStore (c : CallSt) (v : Option Val) (e : Option ErrV) : CallSt :=
  { c with result := v, err := e, readyClosed := true }

/-- Which arm of the outer `select` in `call.wait` fires first for a given
waiter: its own context's `Done` channel, or the call's `ready` channel. -/
inductive WaitEvent where
  | readyFirst
  | ctxDoneFirst
  deriving DecidableEq, Repr

/-- What one `call.wait` invocation returns: the `(v, err)` pair handed to the
caller, and whether the return path blocked on the `ready` channel (that is,
whether the waiter could only return after `c.run` had finished). -/
structure WaitRes where
  v : Option Val
  e : Option ErrV
  waitedReady : Bool
  deriving DecidableEq, Repr

/-- `call.wait(ctx)`.  `entryReadyClosed` is whether `c.ready` was already
closed at the initial non-blocking check (then `(nil, errRetry)` is returned
at once).  `s` is the merger state at the moment the waiter, having seen its
own context complete, evaluates `c.ctx.Done()` — which calls `signal` under
the lock and then checks the merged channel.  `post` is the call record after
`c.run` stored the user function's outcome, which is the state any read gated
on `ready` observes.  `ctxErr` is what the waiter's own `ctx.Err()` reports. -/
def wait (entryReadyClosed : Bool) (s : SharedSt) (post : CallSt) (ctxErr : ErrV)
    (ev : WaitEvent) : WaitRes :=
  if entryReadyClosed then ⟨none, some ErrV.retry, false⟩
  else
    match ev with
    | WaitEvent.readyFirst => ⟨post.result, post.err, true⟩
    | WaitEvent.ctxDoneFirst =>
      if (signal s).done then ⟨post.result, post.err, true⟩
      else ⟨none, some ctxErr, false⟩

/-- Outcome of one pass through `Group.Do`: a final `(v, err)` for the caller,
or a re-invocation of `Do` from the top (`runtime.Gosched(); return g.Do(...)`). -/
inductive DoOutcome where
  | done (v : Option Val) (e : Option ErrV)
  | reinvoke
  deriving DecidableEq, Repr

/-- The join logic of `Group.Do` after the map lookup, as a function of whether
an existing call was found and of what `c.wait` returned.  On the found-path
the result is inspected and `errRetry` causes a re-invocation; on the
creator path (`return c.wait(ctx)`) the wait result is returned unchanged. -/
def DoStep (foundExisting : Bool) (r : WaitRes) : DoOutcome :=
  if foundExisting then
    if r.e = some ErrV.retry then DoOutcome.reinvoke else DoOutcome.done r.v r.e
  else DoOutcome.done r.v r.e

/-- One `progress.Progress` item: its ID, timestamp and payload, abstracted to
naturals. -/
structure PItem where
  id : Nat
  ts : Nat
  payload : Nat
  deriving DecidableEq, Repr

/-- State of `progressState`: the `items` map (`ID → latest item`, kept as a
list of items with pairwise distinct IDs whose order stands in for Go's map
iteration order), the registered subscriber writers (by id, in subscription
order), and the `done` flag. -/
structure ProgressSt where
  items : List PItem
  writers : List Nat
  done : Bool
  deriving DecidableEq, Repr

/-- `newProgressState`: empty items map, no writers, not done. -/
def newProgressState : ProgressSt := { items := [], writers := [], done := false }

/-- `ps.items[p.ID] = p`: last write wins per ID. -/
def insertItem (items : List PItem) (p : PItem) : List PItem :=
  if items.any fun q => q.id == p.id then
    items.map fun q => if q.id == p.id then p else q
  else items ++ [p]

/-- Insertion step for sorting by timestamp with the comparator of
`progressState.add` (`plist[i].Timestamp.Before(plist[j].Timestamp)`). -/
def insertTs (p : PItem) : List PItem → List PItem
  | [] => [p]
  | q :: rest => if p.ts < q.ts then p :: q :: rest else q :: insertTs p rest

/-- The `sort.Slice(plist, ...)` call of `progressState.add`: sort the
snapshot by ascending timestamp. -/
def sortByTs : List PItem → List PItem
  | [] => []
  | p :: rest => insertTs p (sortByTs rest)

/-- Observable outcome of one `progressState.add(pw)`: the updated state, the
items written to the new writer by the replay loop, whether `Close` was called
on it, and whether it was appended to `ps.writers`. -/
structure AddRes where
  st : ProgressSt
  written : List PItem
  closed : Bool
  registered : Bool
  deriving DecidableEq, Repr

/-- `progressState.add(pw)`: if the writer does not implement
`rawProgressWriter` the type assertion fails and the function returns at once;
otherwise snapshot the items map, sort the snapshot by timestamp, write every
snapshot item to the new writer, and then either close it (when `done` is
already set) or register it for live items. -/
def add (ps : ProgressSt) (pw : PWriter) : AddRes :=
  match pw with
  | PWriter.plain _ => ⟨ps, [], false, false⟩
  | PWriter.raw wid =>
    let plist := sortByTs ps.items
    if ps.done then ⟨ps, plist, true, false⟩
    else ⟨{ ps with writers := ps.writers ++ [wid] }, plist, false, true⟩

/-- Observable outcome of one batch iteration of `progressState.run`: the
updated state and the `(writer, item)` write calls issued, in order. -/
structure BatchRes where
  st : ProgressSt
  writes : List (Nat × PItem)
  deriving DecidableEq, Repr

/-- One successful `pr.Read` iteration of `progressState.run`: for each item of
the batch in order, forward it to every currently registered writer and then
store it in the items map. -/
def runBatch (ps : ProgressSt) : List PItem → BatchRes
  | [] => ⟨ps, []⟩
  | p :: rest =>
    let r := runBatch { ps with items := insertItem ps.items p } rest
    ⟨r.st, (ps.writers.map fun w => (w, p)) ++ r.writes⟩

/-- Observable outcome of the `io.EOF` arm of `progressState.run`: the updated
state and the writers that got `Close` called on them. -/
structure EOFRes where
  st : ProgressSt
  closedWriters : List Nat
  deriving DecidableEq, Repr

/-- The `io.EOF` arm of `progressState.run`: set `done` and close every
currently registered writer. -/
def runEOF (ps : ProgressSt) : EOFRes := ⟨{ ps with done := true }, ps.writers⟩

/-- Observable outcome of `call.append(ctx)`: the merger state (context
registered), the progress state, and the `add` observation when the context
carried a progress-writer capability. -/
structure AppendRes where
  shared : SharedSt
  prog : ProgressSt
  addObs : Option AddRes
  deriving DecidableEq, Repr

/-- `call.append(ctx)`: extract the progress-writer capability from the
caller's context (`progress.FromContext`; present iff `ok`), subscribe it via
`progressState.add` when present, and append the context to `c.ctxs`. -/
def append (s : SharedSt) (ps : ProgressSt) (w : Wctx) : AppendRes :=
  match w.pw with
  | none => ⟨{ s with ctxs := s.ctxs ++ [w] }, ps, none⟩
  | some pw =>
    let r := add ps pw
    ⟨{ s with ctxs := s.ctxs ++ [w] }, r.st, some r⟩

/-- Still-active context with error id 0 and no deadline. -/
def w0a : Wctx := ⟨false, ErrV.canceled 0, none, none⟩

/-- Completed context with error id 0. -/
def w0d : Wctx := ⟨true, ErrV.canceled 0, none, none⟩

/-- Still-active context with error id 1. -/
def w1a : Wctx := ⟨false, ErrV.canceled 1, none, none⟩

/-- Completed context with error id 1. -/
def w1d : Wctx := ⟨true, ErrV.canceled 1, none, none⟩

/-- Still-active context with error id 2. -/
def w2a : Wctx := ⟨false, ErrV.canceled 2, none, none⟩

/-- A merger state in which the merged signal has already fired (first waiter
joined, completed, and a signal evaluation closed the merged channel) and two
further waiters joined afterwards, one of which has since completed.  Reached
from `mergerInit` by the step chain exhibited below. -/
def sCex : SharedSt := ⟨[w0d, w1d, w2a], true, some (ErrV.canceled 0)⟩

/-- Active context with deadline 100. -/
def dl100 : Wctx := ⟨false, ErrV.canceled 0, some 100, none⟩

/-- Active context with deadline 50. -/
def dl50 : Wctx := ⟨false, ErrV.canceled 1, some 50, none⟩

/-- A progress item with ID 0, timestamp 1, payload 7. -/
def p0 : PItem := ⟨0, 1, 7⟩

/-- A context carrying a progress-writer capability whose concrete value does
not implement `rawProgressWriter`. -/
def wP : Wctx := ⟨false, ErrV.canceled 3, none, some (PWriter.plain 3)⟩

/-!
Helper lemmas about the merger's `signal`, shared by several claims.
-/

/-- `signal` never changes the list of registered contexts. -/
theorem signal_ctxs (s : SharedSt) : (signal s).ctxs = s.ctxs := by
  by_cases h : s.done
  · simp [signal, h]
  · simp only [signal, h, if_false, Bool.false_eq_true]
    cases signalScan s.ctxs none <;> rfl

/-- The scan of `sharedContext.signal` falls out of the loop (returns `some`)
exactly when every registered context has completed. -/
theorem signalScan_isSome_iff (l : List Wctx) (acc : Option ErrV) :
    (signalScan l acc).isSome = true ↔ ∀ w ∈ l, w.done = true := by
  induction l generalizing acc with
  | nil => simp [signalScan]
  | cons a t ih =>
    by_cases h : a.done = true
    · simp [signalScan, h, ih]
    · simp [signalScan, h]

/-- When every registered context has completed and at least one is
registered, the scan of `signal` produces the error of the last-registered
context (each completed context overwrites the accumulator in order). -/
theorem signalScan_all_done (l : List Wctx) (acc : Option ErrV) (hne : l ≠ [])
    (hall : ∀ w ∈ l, w.done = true) :
    signalScan l acc = some (some ((l.getLast hne).errv)) := by
  induction l generalizing acc with
  | nil => exact absurd rfl hne
  | cons a t ih =>
    have ha : a.done = true := hall a (by simp)
    cases t with
    | nil => simp [signalScan, ha, List.getLast]
    | cons b t2 =>
      have hall2 : ∀ w ∈ b :: t2, w.done = true := fun w hw => hall w (by simp [hw])
      have := ih (some a.errv) (by simp) hall2
      simpa [signalScan, ha, List.getLast] using this

/-- The merged channel is closed after a `signal` evaluation exactly when it
was already closed or every registered context has completed. -/
theorem signal_done_iff (s : SharedSt) :
    (signal s).done = true ↔ (s.done = true ∨ ∀ w ∈ s.ctxs, w.done = true) := by
  by_cases hd : s.done
  · simp [signal, hd]
  · rw [signal, if_neg hd]
    rcases hsc : signalScan s.ctxs none with _ | e
    · show s.done = true ↔ s.done = true ∨ ∀ w ∈ s.ctxs, w.done = true
      constructor
      · intro h; exact Or.inl h
      · rintro (h | hall)
        · exact h
        · exfalso
          have := (signalScan_isSome_iff s.ctxs none).mpr hall
          rw [hsc] at this
          simp at this
    · show true = true ↔ s.done = true ∨ ∀ w ∈ s.ctxs, w.done = true
      constructor
      · intro _
        exact Or.inr ((signalScan_isSome_iff s.ctxs none).mp (by rw [hsc]; rfl))
      · intro _
        rfl

/-- If some registered context is still active, a `signal` evaluation on a
still-open merger leaves the state untouched (the scan returns early). -/
theorem signal_of_active (s : SharedSt) (hnd : s.done = false) (w : Wctx)
    (hw : w ∈ s.ctxs) (h : w.done = false) : signal s = s := by
  have hd : ¬ s.done = true := by simp [hnd]
  rw [signal, if_neg hd]
  rcases hsc : signalScan s.ctxs none with _ | e
  · rfl
  · exfalso
    have hall := (signalScan_isSome_iff s.ctxs none).mp (by rw [hsc]; rfl)
    have := hall w hw
    rw [h] at this
    exact Bool.false_ne_true this

/-- No merger step can close the merged channel while some registered context
is still active: `join` and `complete` never close it, and `signal` closes it
only after scanning every context as completed. -/
theorem mstep_fire_all_done (t u : SharedSt) (h : MStep t u) (ht : t.done = false)
    (hu : u.done = true) : ∀ w ∈ u.ctxs, w.done = true := by
  cases h with
  | join w =>
    exfalso
    have : t.done = true := hu
    rw [ht] at this
    exact Bool.false_ne_true this
  | complete i =>
    exfalso
    have : t.done = true := hu
    rw [ht] at this
    exact Bool.false_ne_true this
  | signalEv =>
    have := (signal_done_iff t).mp hu
    rcases this with h1 | h2
    · rw [ht] at h1; exact absurd h1 Bool.false_ne_true
    · rw [signal_ctxs]; exact h2

/-- `triggerN` is the identity on a call whose once-guard is already claimed. -/
theorem triggerN_of_onceUsed (n : Nat) (c : CallSt) (h : c.onceUsed = true) :
    triggerN n c = c := by
  induction n with
  | zero => rfl
  | succ m ih =>
    show triggerN m (triggerOnce c) = c
    rw [triggerOnce, if_pos h]
    exact ih

/-- Every write issued by a batch iteration of `progressState.run` targets a
writer that was registered at the start of the batch. -/
theorem runBatch_writes_mem (batch : List PItem) (ps : ProgressSt)
    (pr : Nat × PItem) (h : pr ∈ (runBatch ps batch).writes) :
    pr.1 ∈ ps.writers := by
  induction batch generalizing ps with
  | nil => simp [runBatch] at h
  | cons p rest ih =>
    simp only [runBatch, List.mem_append, List.mem_map] at h
    rcases h with ⟨w, hw, he⟩ | h
    · rw [← he]; exact hw
    · exact ih { ps with items := insertItem ps.items p } h

/-!
The claims.
-/

/-- Claim C1: for every key and every number N ≥ 1 of concurrent invocations
of `Group.Do` with that key joining the same live call, the work function is
executed exactly once: the first trigger of the `sync.Once` guard runs
`c.run` (the instrumentation counter ends at 1 regardless of N), and every
trigger on an already-claimed guard is a no-op. -/
theorem single_execution (n : Nat) (h : 1 ≤ n) :
    (triggerN n newCall).runs = 1
    ∧ (∀ c : CallSt, c.onceUsed = true → triggerOnce c = c) := by
  constructor
  · cases n with
    | zero => exact absurd h (by simp)
    | succ m =>
      show (triggerN m (triggerOnce newCall)).runs = 1
      rw [triggerN_of_onceUsed m (triggerOnce newCall) (by rfl)]
      rfl
  · intro c hc
    simp [triggerOnce, hc]

/-- Witness for C1 at N = 50. -/
theorem single_execution_witness :
    (triggerN 50 newCall).runs = 1
    ∧ (∀ c : CallSt, c.onceUsed = true → triggerOnce c = c) :=
  single_execution 50 (by decide)

/-- Claim C2: callers joining the same live call whose own contexts do not
complete before the call finishes all return from `wait` through the `ready`
arm, and every one of them receives exactly the `(result, error)` pair that
the single execution stored via `c.run` before closing `ready` — in
particular any two such callers (with different own-context errors and
whatever the merger state was) receive identical pairs. -/
theorem fanout_identical_result (s s2 : SharedSt) (pre pre2 : CallSt)
    (v : Option Val) (e : Option ErrV) (ce ce2 : ErrV) :
    wait false s (runStore pre v e) ce WaitEvent.readyFirst = ⟨v, e, true⟩
    ∧ wait false s (runStore pre v e) ce WaitEvent.readyFirst
      = wait false s2 (runStore pre2 v e) ce2 WaitEvent.readyFirst := by
  constructor <;> simp [wait, runStore]

/-- Claim C3: a waiter whose own context completed before the call finished
and whose departure left every registered context completed (so the `signal`
evaluation performed by `c.ctx.Done()` closes the merged channel) does not
return until `ready` closes — that is, until `c.run` has returned — and it
returns the user function's real stored `(result, error)`, not a synthesized
cancellation error. -/
theorem last_waiter_gets_fn_result (s : SharedSt) (pre : CallSt) (v : Option Val)
    (e : Option ErrV) (ce : ErrV) (hall : ∀ w ∈ s.ctxs, w.done = true) :
    wait false s (runStore pre v e) ce WaitEvent.ctxDoneFirst = ⟨v, e, true⟩ := by
  have hd : (signal s).done = true := (signal_done_iff s).mpr (Or.inr hall)
  simp [wait, runStore, hd]

/-- Witness for C3: the sole registered context has completed; the waiter gets
the function's stored result 4 with its nil error, having waited for `ready`. -/
theorem last_waiter_gets_fn_result_witness :
    wait false ⟨[w0d], false, none⟩ (runStore newCall (some 4) none)
      (ErrV.canceled 0) WaitEvent.ctxDoneFirst = ⟨some 4, none, true⟩ :=
  last_waiter_gets_fn_result ⟨[w0d], false, none⟩ newCall (some 4) none
    (ErrV.canceled 0) (by decide)

/-- Claim C5: the merged completion signal fires exactly when every registered
context has completed.  First conjunct: a `signal` evaluation closes the
merged channel iff it was already closed or every registered context has
completed.  Second conjunct: no merger step (join, context completion, or
signal evaluation) can close the channel while some registered context is
still active. -/
theorem merged_signal_fires_iff_all_completed (s t u : SharedSt)
    (hstep : MStep t u) :
    ((signal s).done = true ↔ (s.done = true ∨ ∀ w ∈ s.ctxs, w.done = true))
    ∧ (t.done = false → u.done = true → ∀ w ∈ u.ctxs, w.done = true) :=
  ⟨signal_done_iff s, fun ht hu => mstep_fire_all_done t u hstep ht hu⟩

/-- Witness for C5 at a concrete state and a concrete signal step. -/
theorem merged_signal_fires_iff_all_completed_witness :
    (((signal ⟨[w0d], false, none⟩).done = true
        ↔ ((⟨[w0d], false, none⟩ : SharedSt).done = true
          ∨ ∀ w ∈ (⟨[w0d], false, none⟩ : SharedSt).ctxs, w.done = true))
    ∧ ((⟨[w0a], false, none⟩ : SharedSt).done = false
        → (signal ⟨[w0a], false, none⟩).done = true
        → ∀ w ∈ (signal ⟨[w0a], false, none⟩).ctxs, w.done = true)) :=
  merged_signal_fires_iff_all_completed ⟨[w0d], false, none⟩
    ⟨[w0a], false, none⟩ (signal ⟨[w0a], false, none⟩)
    (MStep.signalEv ⟨[w0a], false, none⟩)

/-- Claim C4 counterexample.  `sCex` is reachable from a fresh merger: one
waiter joins and completes, a signal evaluation fires the merged channel, two
more waiters join the still-live call (the `wait` entry check only refuses
joins once `ready` is closed, not once the merged context fired), and one of
them completes.  At that point the call has not finished (`ready` open, so
`wait` was entered with `entryReadyClosed = false`) and another registered
waiter is still active (`activeCount = 1`), yet the departing waiter does not
return immediately with its own error `canceled 1`: it finds the merged
channel already closed, blocks on `ready`, and returns the stored result. -/
theorem departure_with_other_active_cex :
    MReach sCex
    ∧ activeCount sCex.ctxs = 1
    ∧ wait false sCex (runStore newCall (some 9) none) (ErrV.canceled 1)
        WaitEvent.ctxDoneFirst ≠ ⟨none, some (ErrV.canceled 1), false⟩
    ∧ wait false sCex (runStore newCall (some 9) none) (ErrV.canceled 1)
        WaitEvent.ctxDoneFirst = ⟨some 9, none, true⟩ := by
  refine ⟨?_, by decide, by decide, by decide⟩
  have h1 : MStep mergerInit ⟨[w0a], false, none⟩ := MStep.join mergerInit w0a
  have h2 : MStep ⟨[w0a], false, none⟩ ⟨[w0d], false, none⟩ :=
    MStep.complete ⟨[w0a], false, none⟩ 0
  have h3 : MStep ⟨[w0d], false, none⟩ ⟨[w0d], true, some (ErrV.canceled 0)⟩ :=
    MStep.signalEv ⟨[w0d], false, none⟩
  have h4 : MStep ⟨[w0d], true, some (ErrV.canceled 0)⟩
      ⟨[w0d, w1a], true, some (ErrV.canceled 0)⟩ :=
    MStep.join ⟨[w0d], true, some (ErrV.canceled 0)⟩ w1a
  have h5 : MStep ⟨[w0d, w1a], true, some (ErrV.canceled 0)⟩
      ⟨[w0d, w1a, w2a], true, some (ErrV.canceled 0)⟩ :=
    MStep.join ⟨[w0d, w1a], true, some (ErrV.canceled 0)⟩ w2a
  have h6 : MStep ⟨[w0d, w1a, w2a], true, some (ErrV.canceled 0)⟩ sCex :=
    MStep.complete ⟨[w0d, w1a, w2a], true, some (ErrV.canceled 0)⟩ 1
  exact Relation.ReflTransGen.tail
    (Relation.ReflTransGen.tail
      (Relation.ReflTransGen.tail
        (Relation.ReflTransGen.tail
          (Relation.ReflTransGen.tail (Relation.ReflTransGen.single h1) h2) h3)
        h4) h5) h6

/-- Claim C4 (amended): a waiter whose own context completes before the call
finishes while at least one other registered waiter is still active, provided
the merged context has not already fired, returns immediately (without
blocking on `ready`) with a nil result and its own context-completion error,
and the departure leaves the merged context incomplete — the `signal`
evaluation is a no-op, so the work keeps running for the remaining waiters.
(When the merged context has already fired — possible only for waiters that
joined after the merger completed, as in the counterexample — the waiter
instead waits for the real result.) -/
theorem departure_merged_incomplete_returns_own_error (s : SharedSt)
    (post : CallSt) (ce : ErrV) (hnd : s.done = false) (w : Wctx)
    (hw : w ∈ s.ctxs) (hact : w.done = false) :
    wait false s post ce WaitEvent.ctxDoneFirst = ⟨none, some ce, false⟩
    ∧ signal s = s := by
  have hsig : signal s = s := signal_of_active s hnd w hw hact
  constructor
  · have hd : ¬ (signal s).done = true := by rw [hsig, hnd]; simp
    simp [wait, hd]
  · exact hsig

/-- Witness for the amended C4: two registered waiters, one still active; the
departing waiter gets its own error at once and the merger is untouched. -/
theorem departure_merged_incomplete_returns_own_error_witness :
    wait false ⟨[w0d, w1a], false, none⟩ newCall (ErrV.canceled 0)
        WaitEvent.ctxDoneFirst = ⟨none, some (ErrV.canceled 0), false⟩
    ∧ signal ⟨[w0d, w1a], false, none⟩ = ⟨[w0d, w1a], false, none⟩ :=
  departure_merged_incomplete_returns_own_error ⟨[w0d, w1a], false, none⟩
    newCall (ErrV.canceled 0) rfl w1a (by decide) rfl

/-- Claim C6, evaluated at the failing schedule: if a second caller joins the
freshly created call and the call runs to completion before the creating
caller enters `c.wait` (so `ready` is already closed at its entry check), the
creator's `wait` returns `(nil, errRetry)`; `Group.Do` on the creator path
(`foundExisting = false`, line `return c.wait(ctx)`) returns that retry error
unchanged to its caller, whereas the join path (`foundExisting = true`)
absorbs the same wait result into a re-invocation. -/
theorem creator_path_returns_retry :
    wait true mergerInit newCall (ErrV.canceled 0) WaitEvent.readyFirst
      = ⟨none, some ErrV.retry, false⟩
    ∧ DoStep false ⟨none, some ErrV.retry, false⟩
      = DoOutcome.done none (some ErrV.retry)
    ∧ DoStep true ⟨none, some ErrV.retry, false⟩ = DoOutcome.reinvoke := by
  decide

/-- Claim C7 counterexample: two still-active registered contexts with
deadlines 100 and 50 in registration order.  `call.Deadline` returns 100, the
deadline of the first active context scanned, but the earliest deadline among
the active contexts is 50. -/
theorem deadline_not_earliest_cex :
    Deadline [dl100, dl50] = some 100
    ∧ earliestActiveDeadline [dl100, dl50] = some 50
    ∧ Deadline [dl100, dl50] ≠ earliestActiveDeadline [dl100, dl50] := by
  decide

/-- Claim C7 (amended): `call.Deadline` returns the deadline of the first
currently-active registered context, in registration order, that reports one —
skipping contexts that have already completed — and reports no deadline when
no active context reports one (it is the first hit of the scan, not the
minimum). -/
theorem deadline_is_first_active (l : List Wctx) :
    Deadline l = l.findSome? fun w => if w.done then none else w.deadline := by
  induction l with
  | nil => rfl
  | cons a t ih =>
    by_cases h : a.done = true
    · simp [Deadline, h, List.findSome?_cons, ih]
    · rcases hdl : a.deadline with _ | d <;>
        simp [Deadline, h, hdl, List.findSome?_cons, ih]

/-- Claim C8 counterexample: a multiplexer that buffered one item and then
observed end-of-stream (`done` set by the EOF arm of `run`) does not give a
post-completion subscriber an immediate close with zero items: `add` first
replays the buffered item to the writer and only then closes it. -/
theorem add_after_done_cex :
    (runEOF (runBatch newProgressState [p0]).st).st.done = true
    ∧ (add (runEOF (runBatch newProgressState [p0]).st).st (PWriter.raw 5)).written
      = [p0]
    ∧ (add (runEOF (runBatch newProgressState [p0]).st).st (PWriter.raw 5)).written
      ≠ []
    ∧ (add (runEOF (runBatch newProgressState [p0]).st).st (PWriter.raw 5)).closed
      = true := by
  decide

/-- Claim C8 (amended): a subscriber added after the multiplexer observed
producer end-of-stream receives the buffered replay (the items map sorted by
ascending timestamp) and is then closed immediately; it is not registered for
live items and the state is unchanged. -/
theorem add_after_done_replays_then_closes (ps : ProgressSt) (wid : Nat)
    (h : ps.done = true) :
    add ps (PWriter.raw wid) = ⟨ps, sortByTs ps.items, true, false⟩ := by
  simp [add, h]

/-- Witness for the amended C8 at the counterexample state. -/
theorem add_after_done_replays_then_closes_witness :
    add (runEOF (runBatch newProgressState [p0]).st).st (PWriter.raw 5)
      = ⟨(runEOF (runBatch newProgressState [p0]).st).st,
         sortByTs (runEOF (runBatch newProgressState [p0]).st).st.items,
         true, false⟩ :=
  add_after_done_replays_then_closes (runEOF (runBatch newProgressState [p0]).st).st
    5 (by decide)

/-- Claim C9 counterexample: contexts registered in order `[err 0, err 1]`;
the second completes first, then the first completes, taking the active count
from 1 to 0 — so the triggering context is the first-registered one, with
error `canceled 0`.  The signal evaluation nevertheless records `canceled 1`,
the error of the last-registered context, because the scan overwrites the
accumulator with every completed context in registration order. -/
theorem merged_err_not_trigger_cex :
    activeCount [w0a, w1d] = 1
    ∧ activeCount (setDone [w0a, w1d] 0) = 0
    ∧ (signal ⟨setDone [w0a, w1d] 0, false, none⟩).done = true
    ∧ (signal ⟨setDone [w0a, w1d] 0, false, none⟩).err = some (ErrV.canceled 1)
    ∧ ErrV.canceled 1 ≠ ErrV.canceled 0 := by
  decide

/-- Claim C9 (amended): when the merged completion signal fires, the recorded
merged error is the completion error of the last-registered context (the last
element of `c.ctxs`), for every order in which the registered contexts
completed; it coincides with the triggering context's error only when the
triggering context happens to be the last-registered one. -/
theorem merged_err_is_last_registered (s : SharedSt) (hnd : s.done = false)
    (hne : s.ctxs ≠ []) (hall : ∀ w ∈ s.ctxs, w.done = true) :
    (signal s).done = true
    ∧ (signal s).err = some ((s.ctxs.getLast hne).errv) := by
  have hd : ¬ s.done = true := by simp [hnd]
  have hscan := signalScan_all_done s.ctxs none hne hall
  rw [signal, if_neg hd, hscan]
  exact ⟨rfl, rfl⟩

/-- Witness for the amended C9: both registered contexts completed; the merged
error is that of the last-registered context `w1d`. -/
theorem merged_err_is_last_registered_witness :
    (signal ⟨[w0d, w1d], false, none⟩).done = true
    ∧ (signal ⟨[w0d, w1d], false, none⟩).err
      = some ((([w0d, w1d] : List Wctx).getLast (by decide)).errv) :=
  merged_err_is_last_registered ⟨[w0d, w1d], false, none⟩ rfl (by decide) (by decide)

/-- Claim C10: when a joining caller's context carries a progress-writer
capability whose concrete value does not implement `rawProgressWriter`, the
type assertion in `progressState.add` fails and the subscription is silently
skipped: the context is still appended to the waiter list, the multiplexer
state is unchanged, zero items are replayed to the writer, it is neither
closed nor registered — and since live writes and end-of-stream closes go
only to registered writers, the multiplexer never writes to or closes it —
while the caller still receives the call's stored `(result, error)` when the
call finishes. -/
theorem nonraw_writer_skipped (s : SharedSt) (ps : ProgressSt) (w : Wctx)
    (wid : Nat) (pre : CallSt) (v : Option Val) (e : Option ErrV) (ce : ErrV)
    (hpw : w.pw = some (PWriter.plain wid)) :
    (append s ps w).shared.ctxs = s.ctxs ++ [w]
    ∧ (append s ps w).prog = ps
    ∧ (append s ps w).addObs = some ⟨ps, [], false, false⟩
    ∧ (∀ batch : List PItem, ∀ pr ∈ (runBatch ps batch).writes, pr.1 ∈ ps.writers)
    ∧ (runEOF ps).closedWriters = ps.writers
    ∧ wait false s (runStore pre v e) ce WaitEvent.readyFirst = ⟨v, e, true⟩ := by
  refine ⟨?_, ?_, ?_, ?_, rfl, by simp [wait, runStore]⟩
  · simp [append, hpw]
  · simp [append, hpw, add]
  · simp [append, hpw, add]
  · exact fun batch pr h => runBatch_writes_mem batch ps pr h

/-- Witness for C10 at a concrete context carrying a non-raw writer. -/
theorem nonraw_writer_skipped_witness :
    (append mergerInit newProgressState wP).shared.ctxs = mergerInit.ctxs ++ [wP]
    ∧ (append mergerInit newProgressState wP).prog = newProgressState
    ∧ (append mergerInit newProgressState wP).addObs
      = some ⟨newProgressState, [], false, false⟩
    ∧ (∀ batch : List PItem,
        ∀ pr ∈ (runBatch newProgressState batch).writes,
          pr.1 ∈ newProgressState.writers)
    ∧ (runEOF newProgressState).closedWriters = newProgressState.writers
    ∧ wait false mergerInit (runStore newCall (some 1) none) (ErrV.canceled 0)
        WaitEvent.readyFirst = ⟨some 1, none, true⟩ :=
  nonraw_writer_skipped mergerInit newProgressState wP 3 newCall (some 1) none
    (ErrV.canceled 0) rfl

end Flightcontrol
